import Mathlib

/-!
# Verification of the melodeon demodularizer (`src/demod.rs`)

This file gives a shallow embedding of the module-linking stage: the
`Demodularizer` resolver with its memoization cache, and the hygienic
renamer (`mangle` and friends).  The AST types (`RawExpr`, `RawDefn`,
`RawTypeExpr`, `RawConstExpr`, `RawProgram`) live in `grammar.rs`, which is
not part of the sources under verification; they are modelled from the
specification's data-model section and from how `demod.rs` consumes them.
The renamer functions are translated clause by clause from `demod.rs`.
-/

namespace Melodeon

/-- Modelled from the spec: a `Symbol` is an interned name; equality is name
equality.  (`containers.rs` is not among the sources; we model a symbol by
its textual form.) -/
abbrev Symbol := String

/-- Modelled from the spec: a `ModuleId` is an opaque identifier carrying a
process-wide unique numeric tag used as a namespace discriminator; two
`ModuleId`s denote the same module iff they compare equal.  Because the tag
assignment is injective across distinct modules, we model a `ModuleId` by
its tag.  (`context.rs` is not among the sources.) -/
structure ModuleId where
  uniqid : Nat
deriving DecidableEq, Repr

/-- Modelled from the spec: `Ctx<T>` wraps a value with source-position
metadata, propagated but never computed over.  We model the metadata as a
bare number. -/
structure Ctx (α : Type) where
  inner : α
  ctx : Nat
deriving DecidableEq, Repr

/-- Modelled from the spec: compile-time const expressions (`RawConstExpr`
in `grammar.rs`): symbol reference, literal, addition, multiplication. -/
inductive RawConstExpr where
  | Sym : Symbol → RawConstExpr
  | Lit : Nat → RawConstExpr
  | Plus : Ctx RawConstExpr → Ctx RawConstExpr → RawConstExpr
  | Mult : Ctx RawConstExpr → Ctx RawConstExpr → RawConstExpr

/-- Modelled from the spec: type expressions (`RawTypeExpr` in
`grammar.rs`): symbolic reference, union, fixed vector, sized vector,
numeric range. -/
inductive RawTypeExpr where
  | Sym : Symbol → RawTypeExpr
  | Union : Ctx RawTypeExpr → Ctx RawTypeExpr → RawTypeExpr
  | Vector : List (Ctx RawTypeExpr) → RawTypeExpr
  | Vectorof : Ctx RawTypeExpr → Ctx RawConstExpr → RawTypeExpr
  | NatRange : Ctx RawConstExpr → Ctx RawConstExpr → RawTypeExpr

/-- Modelled from the spec: binary operators are carried through the
renamer untouched; we model the operator tag as a bare number. -/
abbrev BinOpKind := Nat

/-- Modelled from the spec: the expression tree (`RawExpr` in
`grammar.rs`), with exactly the variants `mangle_expr` in `demod.rs`
matches on. -/
inductive RawExpr where
  | Let : Ctx Symbol → Ctx RawExpr → Ctx RawExpr → RawExpr
  | If : Ctx RawExpr → Ctx RawExpr → Ctx RawExpr → RawExpr
  | BinOp : BinOpKind → Ctx RawExpr → Ctx RawExpr → RawExpr
  | LitNum : Nat → RawExpr
  | LitVec : List (Ctx RawExpr) → RawExpr
  | LitStruct : Symbol → List (Symbol × Ctx RawExpr) → RawExpr
  | Var : Symbol → RawExpr
  | CgVar : Symbol → RawExpr
  | Apply : Ctx RawExpr → List (Ctx RawExpr) → RawExpr
  | Field : Ctx RawExpr → Symbol → RawExpr
  | VectorRef : Ctx RawExpr → Ctx RawExpr → RawExpr
  | VectorSlice : Ctx RawExpr → Ctx RawExpr → Ctx RawExpr → RawExpr
  | VectorUpdate : Ctx RawExpr → Ctx RawExpr → Ctx RawExpr → RawExpr
  | Loop : Ctx RawConstExpr → List (Symbol × Ctx RawExpr) → Ctx RawExpr → RawExpr
  | IsType : Symbol → Ctx RawTypeExpr → RawExpr
  | AsType : Ctx RawExpr → Ctx RawTypeExpr → RawExpr
  | Fail : RawExpr

/-- Modelled from the spec: a function argument (`grammar.rs`): a name plus
a type annotation (`bind`). -/
structure FunDefArg where
  name : Ctx Symbol
  bind : Ctx RawTypeExpr

/-- Modelled from the spec: top-level definitions (`RawDefn` in
`grammar.rs`): functions, structs, constants, `require`, `provide`. -/
inductive RawDefn where
  | Function : Ctx Symbol → List (Ctx Symbol) → List (Ctx Symbol) → List (Ctx FunDefArg) →
      Option (Ctx RawTypeExpr) → Ctx RawExpr → RawDefn
  | Struct : Ctx Symbol → List (Symbol × Ctx RawTypeExpr) → RawDefn
  | Constant : Ctx Symbol → Ctx RawExpr → RawDefn
  | Require : ModuleId → RawDefn
  | Provide : Symbol → RawDefn

/-- Modelled from the spec: a program (`RawProgram` in `grammar.rs`) is a
sequence of top-level definitions plus a single body expression. -/
structure RawProgram where
  definitions : List (Ctx RawDefn)
  body : Ctx RawExpr

/-- Renaming rule for a single symbol (`mangle_sym` in `demod.rs`): a
member of the do-not-mangle set passes through unchanged, any other symbol
is rewritten from its textual form and the owning module's unique tag. -/
def mangle_sym (sym : Symbol) (source : ModuleId) (no_mangle : Finset Symbol) : Symbol :=
  if sym ∈ no_mangle then sym
  else sym ++ "-" ++ toString source.uniqid

/-- `mangle_ctx_sym` in `demod.rs`: renames the wrapped symbol, keeping its
source-position metadata. -/
def mangle_ctx_sym (sym : Ctx Symbol) (source : ModuleId) (no_mangle : Finset Symbol) :
    Ctx Symbol :=
  ⟨mangle_sym sym.inner source no_mangle, sym.ctx⟩

/-- `mangle_const_expr` in `demod.rs`: structural recursion, renaming
embedded symbols with the set unchanged. -/
def mangle_const_expr : Ctx RawConstExpr → ModuleId → Finset Symbol → Ctx RawConstExpr
  | ⟨.Sym s, c⟩, source, no_mangle => ⟨.Sym (mangle_sym s source no_mangle), c⟩
  | ⟨.Lit l, c⟩, _, _ => ⟨.Lit l, c⟩
  | ⟨.Plus a b, c⟩, source, no_mangle =>
      ⟨.Plus (mangle_const_expr a source no_mangle) (mangle_const_expr b source no_mangle), c⟩
  | ⟨.Mult a b, c⟩, source, no_mangle =>
      ⟨.Mult (mangle_const_expr a source no_mangle) (mangle_const_expr b source no_mangle), c⟩

mutual

/-- `mangle_type_expr` in `demod.rs`: structural recursion, renaming
embedded symbols and const sub-expressions with the set unchanged. -/
def mangle_type_expr : Ctx RawTypeExpr → ModuleId → Finset Symbol → Ctx RawTypeExpr
  | ⟨.Sym s, c⟩, source, no_mangle => ⟨.Sym (mangle_sym s source no_mangle), c⟩
  | ⟨.Union a b, c⟩, source, no_mangle =>
      ⟨.Union (mangle_type_expr a source no_mangle) (mangle_type_expr b source no_mangle), c⟩
  | ⟨.Vector v, c⟩, source, no_mangle =>
      ⟨.Vector (mangle_type_expr_list v source no_mangle), c⟩
  | ⟨.Vectorof v n, c⟩, source, no_mangle =>
      ⟨.Vectorof (mangle_type_expr v source no_mangle) (mangle_const_expr n source no_mangle), c⟩
  | ⟨.NatRange i j, c⟩, source, no_mangle =>
      ⟨.NatRange (mangle_const_expr i source no_mangle) (mangle_const_expr j source no_mangle), c⟩
termination_by t _ _ => sizeOf t

/-- Elementwise `mangle_type_expr` over a vector of type expressions (the
`v.into_iter().map(recurse).collect()` in the `Vector` arm). -/
def mangle_type_expr_list : List (Ctx RawTypeExpr) → ModuleId → Finset Symbol →
    List (Ctx RawTypeExpr)
  | [], _, _ => []
  | t :: ts, source, no_mangle =>
      mangle_type_expr t source no_mangle :: mangle_type_expr_list ts source no_mangle
termination_by ts _ _ => sizeOf ts

end

mutual

/-- `mangle_expr` in `demod.rs`: the scope-aware expression traversal.  A
`Let` extends the do-not-mangle set with the bound name for the body (the
bound value is reproduced as the source reproduces it); every other form
recurses structurally with the set unchanged, renaming embedded symbols
and type/const sub-expressions, and keeps each node's metadata. -/
def mangle_expr : Ctx RawExpr → ModuleId → Finset Symbol → Ctx RawExpr
  | ⟨.Let sym bind body, c⟩, source, no_mangle =>
      ⟨.Let sym bind (mangle_expr body source (insert sym.inner no_mangle)), c⟩
  | ⟨.If cond a b, c⟩, source, no_mangle =>
      ⟨.If (mangle_expr cond source no_mangle) (mangle_expr a source no_mangle)
        (mangle_expr b source no_mangle), c⟩
  | ⟨.BinOp op a b, c⟩, source, no_mangle =>
      ⟨.BinOp op (mangle_expr a source no_mangle) (mangle_expr b source no_mangle), c⟩
  | ⟨.LitNum a, c⟩, _, _ => ⟨.LitNum a, c⟩
  | ⟨.LitVec v, c⟩, source, no_mangle =>
      ⟨.LitVec (mangle_expr_list v source no_mangle), c⟩
  | ⟨.LitStruct a fields, c⟩, source, no_mangle =>
      ⟨.LitStruct (mangle_sym a source no_mangle)
        (mangle_expr_fields fields source no_mangle), c⟩
  | ⟨.Var v, c⟩, source, no_mangle => ⟨.Var (mangle_sym v source no_mangle), c⟩
  | ⟨.CgVar v, c⟩, source, no_mangle => ⟨.CgVar (mangle_sym v source no_mangle), c⟩
  | ⟨.Apply f args, c⟩, source, no_mangle =>
      ⟨.Apply (mangle_expr f source no_mangle) (mangle_expr_list args source no_mangle), c⟩
  | ⟨.Field a b, c⟩, source, no_mangle => ⟨.Field (mangle_expr a source no_mangle) b, c⟩
  | ⟨.VectorRef v i, c⟩, source, no_mangle =>
      ⟨.VectorRef (mangle_expr v source no_mangle) (mangle_expr i source no_mangle), c⟩
  | ⟨.VectorSlice v i j, c⟩, source, no_mangle =>
      ⟨.VectorSlice (mangle_expr v source no_mangle) (mangle_expr i source no_mangle)
        (mangle_expr j source no_mangle), c⟩
  | ⟨.VectorUpdate v i x, c⟩, source, no_mangle =>
      ⟨.VectorUpdate (mangle_expr v source no_mangle) (mangle_expr i source no_mangle)
        (mangle_expr x source no_mangle), c⟩
  | ⟨.Loop n bod lastE, c⟩, source, no_mangle =>
      ⟨.Loop (mangle_const_expr n source no_mangle)
        (mangle_expr_loop_binds bod source no_mangle)
        (mangle_expr lastE source no_mangle), c⟩
  | ⟨.IsType a t, c⟩, source, no_mangle =>
      ⟨.IsType (mangle_sym a source no_mangle) (mangle_type_expr t source no_mangle), c⟩
  | ⟨.AsType a t, c⟩, source, no_mangle =>
      ⟨.AsType (mangle_expr a source no_mangle) (mangle_type_expr t source no_mangle), c⟩
  | ⟨.Fail, c⟩, _, _ => ⟨.Fail, c⟩
termination_by e _ _ => sizeOf e

/-- Elementwise `mangle_expr` over an expression vector (the
`map(recurse).collect()` in the `LitVec` and `Apply` arms). -/
def mangle_expr_list : List (Ctx RawExpr) → ModuleId → Finset Symbol → List (Ctx RawExpr)
  | [], _, _ => []
  | e :: es, source, no_mangle =>
      mangle_expr e source no_mangle :: mangle_expr_list es source no_mangle
termination_by es _ _ => sizeOf es

/-- Struct-literal fields (the `LitStruct` arm): field keys are kept,
field values are recursed into. -/
def mangle_expr_fields : List (Symbol × Ctx RawExpr) → ModuleId → Finset Symbol →
    List (Symbol × Ctx RawExpr)
  | [], _, _ => []
  | (k, b) :: fs, source, no_mangle =>
      (k, mangle_expr b source no_mangle) :: mangle_expr_fields fs source no_mangle
termination_by fs _ _ => sizeOf fs

/-- Loop accumulator bindings (the `Loop` arm): each binder is mangled as a
plain symbol reference under the current set, each bound expression is
recursed into. -/
def mangle_expr_loop_binds : List (Symbol × Ctx RawExpr) → ModuleId → Finset Symbol →
    List (Symbol × Ctx RawExpr)
  | [], _, _ => []
  | (k, v) :: bs, source, no_mangle =>
      (mangle_sym k source no_mangle, mangle_expr v source no_mangle) ::
        mangle_expr_loop_binds bs source no_mangle
termination_by bs _ _ => sizeOf bs

end

/-- Failures of the resolution pipeline.  `err` is a recoverable error
value (the `CtxErr` channel: loader and syntax errors); `panicked` is a
fatal, unrecoverable fault (a Rust `todo` hard stop aborts the process
instead of returning a result); `fuel` is an artifact of the fuel-indexed
model of the source's unbounded recursion (spent fuel stands for
non-termination, which the source does not guard against). -/
inductive Failure where
  | err : String → Failure
  | panicked : String → Failure
  | fuel : Failure
deriving DecidableEq, Repr

/-- The do-not-mangle seed set of `mangle` in `demod.rs`: the symbols the
definition sequence `Provide`s. -/
def no_mangle_of (defs : List (Ctx RawDefn)) : Finset Symbol :=
  (defs.filterMap fun a =>
    match a.inner with
    | .Provide s => some s
    | _ => none).toFinset

/-- One arm of the `filter_map` body of `mangle` in `demod.rs`.  A
`Function` is rebuilt with its name renamed under the outer set, its
argument type annotations and body renamed under the set extended with the
compile-time-generic, generic, and argument names, and its return type
renamed under the outer set; a `Struct` renames only its own name;
`Require` and `Provide` are dropped; `Constant` is an unimplemented hard
stop (`todo` in the source).  The output keeps the definition's
metadata. -/
def mangle_defn : Ctx RawDefn → ModuleId → Finset Symbol →
    Except Failure (Option (Ctx RawDefn))
  | ⟨.Function name cgvars genvars args rettype body, c⟩, source, no_mangle =>
      let inner_nomangle :=
        ((cgvars.map Ctx.inner ++ genvars.map Ctx.inner) ++
            args.map (fun a => a.inner.name.inner)).foldl
          (fun acc s => insert s acc) no_mangle
      .ok (some ⟨.Function (mangle_ctx_sym name source no_mangle) cgvars genvars
        (args.map fun arg =>
          ⟨{ arg.inner with bind := mangle_type_expr arg.inner.bind source inner_nomangle },
            arg.ctx⟩)
        (rettype.map fun rt => mangle_type_expr rt source no_mangle)
        (mangle_expr body source inner_nomangle), c⟩)
  | ⟨.Struct name fields, c⟩, source, no_mangle =>
      .ok (some ⟨.Struct (mangle_ctx_sym name source no_mangle) fields, c⟩)
  | ⟨.Constant _ _, _⟩, _, _ => .error (.panicked "not yet implemented")
  | ⟨.Require _, _⟩, _, _ => .ok none
  | ⟨.Provide _, _⟩, _, _ => .ok none

/-- The `filter_map(..).collect()` loop of `mangle` in `demod.rs` over a
definition sequence, under a fixed do-not-mangle set. -/
def mangle_defs : List (Ctx RawDefn) → ModuleId → Finset Symbol →
    Except Failure (List (Ctx RawDefn))
  | [], _, _ => .ok []
  | d :: ds, source, no_mangle =>
    match mangle_defn d source no_mangle, mangle_defs ds source no_mangle with
    | .error e, _ => .error e
    | .ok _, .error e => .error e
    | .ok none, .ok rest => .ok rest
    | .ok (some x), .ok rest => .ok (x :: rest)

/-- `mangle` in `demod.rs`: seeds the do-not-mangle set with the sequence's
own `Provide`d symbols, then renames every definition. -/
def mangle (defs : List (Ctx RawDefn)) (source : ModuleId) :
    Except Failure (List (Ctx RawDefn)) :=
  mangle_defs defs source (no_mangle_of defs)

/-- The injected collaborators of the resolver: the loader closure
(`fallback` in `demod.rs`) and, modelled from the spec, the external parser
(`parse_program` from `grammar.rs`, a deterministic function of the source
text and the owning module). -/
structure DemodEnv where
  fallback : ModuleId → Except String String
  parse_program : String → ModuleId → Except Failure (Ctx RawProgram)

/-- The resolver's mutable state: the `cache` field of `Demodularizer`
(`DashMap` keyed by module, modelled as an association list), plus the
loader/parse call counters the spec designates as the test observables for
the caching contract. -/
structure DemodState where
  cache : List (ModuleId × Ctx RawProgram)
  loads : Nat
  parses : Nat

/-- The fold body of `demod` in `demod.rs` over a module's definition list,
sequentialized in original order (the source's parallel fold/reduce merges
partial results by concatenation in original partition order): a `Require`
is replaced in place by the dependency's resolved definitions renamed with
the dependency as owner, every other definition is copied through
unchanged.  `resolve` is the recursive entry point. -/
def demod_defs
    (resolve : DemodState → ModuleId → Except Failure (Ctx RawProgram) × DemodState) :
    DemodState → List (Ctx RawDefn) → Except Failure (List (Ctx RawDefn)) × DemodState
  | st, [] => (.ok [], st)
  | st, d :: ds =>
    match d.inner with
    | .Require other =>
      match resolve st other with
      | (.error e, st1) => (.error e, st1)
      | (.ok subp, st1) =>
        match mangle subp.inner.definitions other with
        | .error e => (.error e, st1)
        | .ok mangled =>
          match demod_defs resolve st1 ds with
          | (.error e, st2) => (.error e, st2)
          | (.ok rest, st2) => (.ok (mangled ++ rest), st2)
    | _ =>
      match demod_defs resolve st ds with
      | (.error e, st1) => (.error e, st1)
      | (.ok rest, st1) => (.ok (d :: rest), st1)

/-- `Demodularizer::demod` in `demod.rs`, fuel-indexed (the source recurses
without a cycle guard; fuel exhaustion models non-termination).  On a cache
hit the stored program is returned as-is and no collaborator runs.  On a
miss the loader is invoked (a failure propagates as a module-unavailable
error), the text is parsed, the definition list is resolved by
`demod_defs`, and the flattened program is returned carrying the parsed
module's body and metadata.  As in the source, the computed result is not
inserted into the cache. -/
def demod (env : DemodEnv) : Nat → DemodState → ModuleId →
    Except Failure (Ctx RawProgram) × DemodState
  | 0, st, _ => (.error .fuel, st)
  | fuel + 1, st, id =>
    match st.cache.lookup id with
    | some res => (.ok res, st)
    | none =>
      let st1 : DemodState := { st with loads := st.loads + 1 }
      match env.fallback id with
      | .error e => (.error (.err e), st1)
      | .ok raw_string =>
        let st2 : DemodState := { st1 with parses := st1.parses + 1 }
        match env.parse_program raw_string id with
        | .error e => (.error e, st2)
        | .ok parsed =>
          match demod_defs (fun s m => demod env fuel s m) st2 parsed.inner.definitions with
          | (.error e, st3) => (.error e, st3)
          | (.ok new_defs, st3) =>
            (.ok ⟨{ definitions := new_defs, body := parsed.inner.body }, parsed.ctx⟩, st3)

/-! ## Helper predicates and lemmas -/

/-- Whether a definition is a `Require` directive. -/
def RawDefn.isRequire : RawDefn → Bool
  | .Require _ => true
  | _ => false

/-- Whether a definition is a `Provide` directive. -/
def RawDefn.isProvide : RawDefn → Bool
  | .Provide _ => true
  | _ => false

/-- Whether a definition is a `Constant` definition. -/
def RawDefn.isConstant : RawDefn → Bool
  | .Constant _ _ => true
  | _ => false

/-- The declared top-level name of a definition, when it has one. -/
def RawDefn.defn_name : RawDefn → Option Symbol
  | .Function name _ _ _ _ _ => some name.inner
  | .Struct name _ => some name.inner
  | .Constant name _ => some name.inner
  | .Require _ => none
  | .Provide _ => none

/-- A name of the form `s ++ "-" ++ t` is never the bare `s`: mangling
strictly lengthens a symbol. -/
theorem append_tag_ne (s t : String) : s ++ "-" ++ t ≠ s := by
  intro h
  have hl := congrArg String.length h
  have h1 : ("-" : String).length = 1 := rfl
  simp [String.length_append, h1] at hl
  omega

/-- Left fold of `insert` over a list of symbols computes the union with
the list's elements. -/
theorem foldl_insert_eq_union (l : List Symbol) (s : Finset Symbol) :
    l.foldl (fun acc x => insert x acc) s = s ∪ l.toFinset := by
  induction l generalizing s with
  | nil => simp
  | cons x xs ih =>
      simp only [List.foldl_cons, ih, List.toFinset_cons]
      ext a
      simp

/-! ## Claims about the renamer -/

/-- C7: a symbol in the current do-not-mangle set passes through the
renamer unchanged; any other symbol is rewritten to the name built from
its textual form and the owning module's unique numeric tag — a fixed
formula in `(sym, uniqid)`, so the same pair always yields the same
name. -/
theorem mangle_sym_spec (sym : Symbol) (source : ModuleId) (no_mangle : Finset Symbol) :
    (sym ∈ no_mangle → mangle_sym sym source no_mangle = sym) ∧
    (sym ∉ no_mangle →
      mangle_sym sym source no_mangle = sym ++ "-" ++ toString source.uniqid) := by
  constructor <;> intro h <;> simp [mangle_sym, h]

theorem mangle_sym_spec_witness :
    mangle_sym "f" ⟨3⟩ {"f"} = "f" ∧
      mangle_sym "g" ⟨3⟩ {"f"} = "g" ++ "-" ++ toString (3 : Nat) :=
  ⟨(mangle_sym_spec "f" ⟨3⟩ {"f"}).1 (by decide),
   (mangle_sym_spec "g" ⟨3⟩ {"f"}).2 (by decide)⟩

/-- C8: renaming a `Function` definition uses, for its body and its
argument type annotations, the outer do-not-mangle set extended with the
function's compile-time-generic parameter names, generic parameter names,
and argument names; the function's own name and its return type are
renamed under the outer set, and everything else is kept. -/
theorem mangle_defn_function_scopes (name : Ctx Symbol) (cgvars genvars : List (Ctx Symbol))
    (args : List (Ctx FunDefArg)) (rettype : Option (Ctx RawTypeExpr)) (body : Ctx RawExpr)
    (c : Nat) (source : ModuleId) (no_mangle : Finset Symbol) :
    mangle_defn ⟨.Function name cgvars genvars args rettype body, c⟩ source no_mangle =
      .ok (some ⟨.Function (mangle_ctx_sym name source no_mangle) cgvars genvars
        (args.map fun arg =>
          ⟨⟨arg.inner.name, mangle_type_expr arg.inner.bind source
              (no_mangle ∪ ((cgvars.map Ctx.inner).toFinset ∪ (genvars.map Ctx.inner).toFinset
                ∪ (args.map fun a => a.inner.name.inner).toFinset))⟩, arg.ctx⟩)
        (rettype.map fun rt => mangle_type_expr rt source no_mangle)
        (mangle_expr body source
          (no_mangle ∪ ((cgvars.map Ctx.inner).toFinset ∪ (genvars.map Ctx.inner).toFinset
            ∪ (args.map fun a => a.inner.name.inner).toFinset))), c⟩) := by
  have h :
      ((cgvars.map Ctx.inner ++ genvars.map Ctx.inner) ++
          args.map (fun a => a.inner.name.inner)).foldl
        (fun acc s => insert s acc) no_mangle =
      no_mangle ∪ ((cgvars.map Ctx.inner).toFinset ∪ (genvars.map Ctx.inner).toFinset
        ∪ (args.map fun a => a.inner.name.inner).toFinset) := by
    rw [foldl_insert_eq_union]
    simp [Finset.union_assoc]
  simp only [mangle_defn, h]

/-- C10: within a `Function` definition the optional return type is
renamed under the outer (non-extended) do-not-mangle set: a generic
parameter `T` referred to in the return type is renamed (to a strictly
different name), while the very same reference in an argument type
annotation or in the body is exempt and survives unchanged. -/
theorem mangle_defn_rettype_outer_set (source : ModuleId) :
    mangle_defn ⟨.Function ⟨"fn", 0⟩ [] [⟨"T", 1⟩]
        [⟨⟨⟨"x", 2⟩, ⟨.Sym "T", 3⟩⟩, 4⟩] (some ⟨.Sym "T", 5⟩) ⟨.Var "T", 6⟩, 7⟩ source ∅ =
      .ok (some ⟨.Function ⟨"fn" ++ "-" ++ toString source.uniqid, 0⟩ [] [⟨"T", 1⟩]
        [⟨⟨⟨"x", 2⟩, ⟨.Sym "T", 3⟩⟩, 4⟩]
        (some ⟨.Sym ("T" ++ "-" ++ toString source.uniqid), 5⟩) ⟨.Var "T", 6⟩, 7⟩) ∧
    "T" ++ "-" ++ toString source.uniqid ≠ "T" := by
  constructor
  · simp [mangle_defn, mangle_ctx_sym, mangle_sym, mangle_type_expr, mangle_expr]
  · exact append_tag_ne "T" (toString source.uniqid)

/-- C2: inside a `Let` expression the body is renamed under the enclosing
set extended with the bound name (here the body reference `x` survives),
but, contrary to the specification, the bound value expression is not
renamed at all: the free reference `f` in the bound value is reproduced
verbatim even though a plain reference `f` at this position is renamed to
a strictly different name. -/
theorem mangle_expr_let_bind_unmangled :
    mangle_expr ⟨.Let ⟨"x", 0⟩ ⟨.Var "f", 1⟩ ⟨.Var "x", 2⟩, 3⟩ ⟨5⟩ ∅ =
      ⟨.Let ⟨"x", 0⟩ ⟨.Var "f", 1⟩ ⟨.Var "x", 2⟩, 3⟩ ∧
    mangle_expr ⟨.Var "f", 1⟩ ⟨5⟩ ∅ = ⟨.Var ("f" ++ "-" ++ toString (5 : Nat)), 1⟩ ∧
    "f" ++ "-" ++ toString (5 : Nat) ≠ "f" := by
  refine ⟨?_, ?_, append_tag_ne "f" (toString (5 : Nat))⟩
  · simp [mangle_expr, mangle_sym]
  · simp [mangle_expr, mangle_sym]

/-- Renaming a definition sequence that contains a `Constant` definition
always aborts with the fatal `todo` fault, under any do-not-mangle set. -/
theorem mangle_defs_constant_panics (defs : List (Ctx RawDefn)) (source : ModuleId)
    (nm : Finset Symbol) (h : ∃ d ∈ defs, d.inner.isConstant) :
    mangle_defs defs source nm = .error (.panicked "not yet implemented") := by
  induction defs with
  | nil => simp at h
  | cons d ds ih =>
      obtain ⟨x, hx, hc⟩ := h
      rcases List.mem_cons.1 hx with rfl | hmem
      · obtain ⟨xi, xc⟩ := x
        cases xi <;> simp [RawDefn.isConstant] at hc
        simp [mangle_defs, mangle_defn]
      · have htl := ih ⟨x, hmem, hc⟩
        obtain ⟨di, dc⟩ := d
        cases di <;> simp [mangle_defs, mangle_defn, htl]

/-- C9: a `Constant` definition anywhere in the sequence makes the renamer
abort with a fatal fault (the unimplemented-case hard stop) instead of
returning a renamed sequence or a recoverable error value. -/
theorem mangle_constant_fatal (defs : List (Ctx RawDefn)) (source : ModuleId)
    (h : ∃ d ∈ defs, d.inner.isConstant) :
    mangle defs source = .error (.panicked "not yet implemented") :=
  mangle_defs_constant_panics defs source (no_mangle_of defs) h

theorem mangle_constant_fatal_witness :
    mangle [⟨.Constant ⟨"c", 0⟩ ⟨.LitNum 1, 1⟩, 2⟩] ⟨3⟩ =
      .error (.panicked "not yet implemented") :=
  mangle_constant_fatal [⟨.Constant ⟨"c", 0⟩ ⟨.LitNum 1, 1⟩, 2⟩] ⟨3⟩
    ⟨⟨.Constant ⟨"c", 0⟩ ⟨.LitNum 1, 1⟩, 2⟩, by simp [RawDefn.isConstant]⟩

/-! ## Unfolding lemmas for the resolver -/

/-- One-step unfolding of `demod` at positive fuel. -/
theorem demod_succ (env : DemodEnv) (fuel : Nat) (st : DemodState) (id : ModuleId) :
    demod env (fuel + 1) st id =
      match st.cache.lookup id with
      | some res => (.ok res, st)
      | none =>
        match env.fallback id with
        | .error e => (.error (.err e), { st with loads := st.loads + 1 })
        | .ok raw_string =>
          match env.parse_program raw_string id with
          | .error e => (.error e, { st with loads := st.loads + 1, parses := st.parses + 1 })
          | .ok parsed =>
            match demod_defs (fun s m => demod env fuel s m)
                { st with loads := st.loads + 1, parses := st.parses + 1 }
                parsed.inner.definitions with
            | (.error e, st3) => (.error e, st3)
            | (.ok new_defs, st3) =>
              (.ok ⟨{ definitions := new_defs, body := parsed.inner.body }, parsed.ctx⟩, st3) :=
  rfl

/-- `demod_defs` on an empty definition list. -/
theorem demod_defs_nil
    (resolve : DemodState → ModuleId → Except Failure (Ctx RawProgram) × DemodState)
    (st : DemodState) : demod_defs resolve st [] = (.ok [], st) := rfl

/-- `demod_defs` copies a non-`Require` head definition through unchanged. -/
theorem demod_defs_cons_skip
    (resolve : DemodState → ModuleId → Except Failure (Ctx RawProgram) × DemodState)
    (st : DemodState) (d : Ctx RawDefn) (ds : List (Ctx RawDefn))
    (h : d.inner.isRequire = false) :
    demod_defs resolve st (d :: ds) =
      match demod_defs resolve st ds with
      | (.error e, st1) => (.error e, st1)
      | (.ok rest, st1) => (.ok (d :: rest), st1) := by
  obtain ⟨di, c⟩ := d
  cases di <;> first | rfl | simp [RawDefn.isRequire] at h

/-- `demod_defs` replaces a `Require` head in place by the dependency's
resolved, renamed definitions. -/
theorem demod_defs_cons_require
    (resolve : DemodState → ModuleId → Except Failure (Ctx RawProgram) × DemodState)
    (st : DemodState) (other : ModuleId) (c : Nat) (ds : List (Ctx RawDefn)) :
    demod_defs resolve st (⟨.Require other, c⟩ :: ds) =
      match resolve st other with
      | (.error e, st1) => (.error e, st1)
      | (.ok subp, st1) =>
        match mangle subp.inner.definitions other with
        | .error e => (.error e, st1)
        | .ok mangled =>
          match demod_defs resolve st1 ds with
          | (.error e, st2) => (.error e, st2)
          | (.ok rest, st2) => (.ok (mangled ++ rest), st2) := rfl

/-! ## Claims about the resolver -/

/-- A one-module environment for exercising the cache: the loader always
succeeds and the parser returns an empty program. -/
def c1_env : DemodEnv where
  fallback := fun _ => .ok ""
  parse_program := fun _ _ => .ok ⟨⟨[], ⟨.LitNum 0, 0⟩⟩, 1⟩

/-- C1: two successive resolutions of the same module return value-equal
programs, but the second call is not answered from the cache: `demod`
never writes the cache, so the cache is still empty after the first call
and the second call invokes the loader and the parser again (the `loads`
and `parses` counters both advance from 1 to 2). -/
theorem demod_second_call_repeats_work :
    demod c1_env 1 ⟨[], 0, 0⟩ ⟨7⟩ = (.ok ⟨⟨[], ⟨.LitNum 0, 0⟩⟩, 1⟩, ⟨[], 1, 1⟩) ∧
    demod c1_env 1 ⟨[], 1, 1⟩ ⟨7⟩ = (.ok ⟨⟨[], ⟨.LitNum 0, 0⟩⟩, 1⟩, ⟨[], 2, 2⟩) :=
  ⟨rfl, rfl⟩

/-- The two-module environment of the order-preservation scenario: module
`A` is `[F1, Require M, F2]`, module `M` is `[G1, G2]`. -/
def order_env (A M : ModuleId) (F1 F2 G1 G2 : Ctx RawDefn) : DemodEnv where
  fallback := fun _ => .ok ""
  parse_program := fun _ id =>
    if id = A then .ok ⟨⟨[F1, ⟨.Require M, 0⟩, F2], ⟨.LitNum 0, 1⟩⟩, 2⟩
    else if id = M then .ok ⟨⟨[G1, G2], ⟨.LitNum 0, 3⟩⟩, 4⟩
    else .error (.err "module not available")

/-- C5: resolving a module with definitions `[F1, Require M, F2]`, where
`M` flattens to `[G1, G2]` and its renaming yields `gs`, produces the
definition sequence `F1 :: gs ++ [F2]`: the module's own textual order is
preserved and the `Require` is replaced in place. -/
theorem demod_order_preserving (A M : ModuleId) (F1 F2 G1 G2 : Ctx RawDefn)
    (gs : List (Ctx RawDefn)) (hAM : M ≠ A)
    (hF1 : F1.inner.isRequire = false) (hF2 : F2.inner.isRequire = false)
    (hG1 : G1.inner.isRequire = false) (hG2 : G2.inner.isRequire = false)
    (hm : mangle [G1, G2] M = .ok gs) :
    (demod (order_env A M F1 F2 G1 G2) 2 ⟨[], 0, 0⟩ A).1 =
      .ok ⟨⟨F1 :: (gs ++ [F2]), ⟨.LitNum 0, 1⟩⟩, 2⟩ := by
  have hpA : (order_env A M F1 F2 G1 G2).parse_program "" A =
      .ok ⟨⟨[F1, ⟨.Require M, 0⟩, F2], ⟨.LitNum 0, 1⟩⟩, 2⟩ := by
    simp [order_env]
  have hpM : (order_env A M F1 F2 G1 G2).parse_program "" M =
      .ok ⟨⟨[G1, G2], ⟨.LitNum 0, 3⟩⟩, 4⟩ := by
    simp [order_env, hAM]
  have hfb : ∀ i, (order_env A M F1 F2 G1 G2).fallback i = .ok "" := fun _ => rfl
  have hM : demod (order_env A M F1 F2 G1 G2) 1 ⟨[], 1, 1⟩ M =
      (.ok ⟨⟨[G1, G2], ⟨.LitNum 0, 3⟩⟩, 4⟩, ⟨[], 2, 2⟩) := by
    rw [demod_succ _ 0]
    simp [List.lookup_nil, hfb, hpM]
    rw [demod_defs_cons_skip _ _ _ _ hG1, demod_defs_cons_skip _ _ _ _ hG2, demod_defs_nil]
  rw [demod_succ _ 1]
  simp [List.lookup_nil, hfb, hpA]
  rw [demod_defs_cons_skip _ _ _ _ hF1, demod_defs_cons_require]
  simp [hM, hm]
  rw [demod_defs_cons_skip _ _ _ _ hF2, demod_defs_nil]

theorem demod_order_preserving_witness :
    (demod (order_env ⟨0⟩ ⟨1⟩ ⟨.Provide "a", 9⟩ ⟨.Struct ⟨"t", 8⟩ [], 7⟩
        ⟨.Struct ⟨"u", 6⟩ [], 5⟩ ⟨.Provide "v", 4⟩) 2 ⟨[], 0, 0⟩ ⟨0⟩).1 =
      .ok ⟨⟨⟨.Provide "a", 9⟩ :: ([⟨.Struct ⟨"u" ++ "-" ++ toString (1 : Nat), 6⟩ [], 5⟩] ++
        [⟨.Struct ⟨"t", 8⟩ [], 7⟩]), ⟨.LitNum 0, 1⟩⟩, 2⟩ :=
  demod_order_preserving ⟨0⟩ ⟨1⟩ ⟨.Provide "a", 9⟩ ⟨.Struct ⟨"t", 8⟩ [], 7⟩
    ⟨.Struct ⟨"u", 6⟩ [], 5⟩ ⟨.Provide "v", 4⟩
    [⟨.Struct ⟨"u" ++ "-" ++ toString (1 : Nat), 6⟩ [], 5⟩]
    (by decide) rfl rfl rfl rfl
    (by simp [mangle, mangle_defs, mangle_defn, no_mangle_of, mangle_ctx_sym, mangle_sym])

/-- The two-module environment of the hygiene scenario: modules `A` and
`B` each privately define a function named `f` whose body refers to `f`,
and `A` requires `B`. -/
def hygiene_env (A B : ModuleId) : DemodEnv where
  fallback := fun _ => .ok ""
  parse_program := fun _ id =>
    if id = A then
      .ok ⟨⟨[⟨.Function ⟨"f", 0⟩ [] [] [] none ⟨.Var "f", 1⟩, 2⟩,
             ⟨.Require B, 3⟩], ⟨.LitNum 0, 4⟩⟩, 5⟩
    else if id = B then
      .ok ⟨⟨[⟨.Function ⟨"f", 6⟩ [] [] [] none ⟨.Var "f", 7⟩, 8⟩], ⟨.LitNum 0, 9⟩⟩, 10⟩
    else .error (.err "module not available")

/-- C3: resolving `A` (which requires `B`, both privately defining `f`)
yields two top-level functions whose names differ — `A` keeps `f`, `B`'s
copy becomes the `B`-tagged name — and each body's reference is to its own
module's name: `A`'s body still references `f` and `B`'s body references
the `B`-tagged name, which is never `A`'s name `f`. -/
theorem demod_hygiene (A B : ModuleId) (h : B ≠ A) :
    (demod (hygiene_env A B) 2 ⟨[], 0, 0⟩ A).1 =
      .ok ⟨⟨[⟨.Function ⟨"f", 0⟩ [] [] [] none ⟨.Var "f", 1⟩, 2⟩,
             ⟨.Function ⟨"f" ++ "-" ++ toString B.uniqid, 6⟩ [] [] [] none
               ⟨.Var ("f" ++ "-" ++ toString B.uniqid), 7⟩, 8⟩], ⟨.LitNum 0, 4⟩⟩, 5⟩ ∧
    "f" ++ "-" ++ toString B.uniqid ≠ "f" := by
  have hpA : (hygiene_env A B).parse_program "" A =
      .ok ⟨⟨[⟨.Function ⟨"f", 0⟩ [] [] [] none ⟨.Var "f", 1⟩, 2⟩,
             ⟨.Require B, 3⟩], ⟨.LitNum 0, 4⟩⟩, 5⟩ := by
    simp [hygiene_env]
  have hpB : (hygiene_env A B).parse_program "" B =
      .ok ⟨⟨[⟨.Function ⟨"f", 6⟩ [] [] [] none ⟨.Var "f", 7⟩, 8⟩], ⟨.LitNum 0, 9⟩⟩, 10⟩ := by
    simp [hygiene_env, h]
  have hfb : ∀ i, (hygiene_env A B).fallback i = .ok "" := fun _ => rfl
  have hB : demod (hygiene_env A B) 1 ⟨[], 1, 1⟩ B =
      (.ok ⟨⟨[⟨.Function ⟨"f", 6⟩ [] [] [] none ⟨.Var "f", 7⟩, 8⟩], ⟨.LitNum 0, 9⟩⟩, 10⟩,
        ⟨[], 2, 2⟩) := by
    rw [demod_succ _ 0]
    simp [List.lookup_nil, hfb, hpB]
    rw [demod_defs_cons_skip _ _ ⟨.Function ⟨"f", 6⟩ [] [] [] none ⟨.Var "f", 7⟩, 8⟩ _ rfl,
      demod_defs_nil]
  have hmB : mangle [⟨.Function ⟨"f", 6⟩ [] [] [] none ⟨.Var "f", 7⟩, 8⟩] B =
      .ok [⟨.Function ⟨"f" ++ "-" ++ toString B.uniqid, 6⟩ [] [] [] none
        ⟨.Var ("f" ++ "-" ++ toString B.uniqid), 7⟩, 8⟩] := by
    simp [mangle, mangle_defs, mangle_defn, no_mangle_of, mangle_ctx_sym, mangle_sym,
      mangle_expr]
  refine ⟨?_, append_tag_ne "f" (toString B.uniqid)⟩
  rw [demod_succ _ 1]
  simp [List.lookup_nil, hfb, hpA]
  rw [demod_defs_cons_skip _ _ ⟨.Function ⟨"f", 0⟩ [] [] [] none ⟨.Var "f", 1⟩, 2⟩ _ rfl,
    demod_defs_cons_require]
  simp [hB, hmB, demod_defs_nil]

theorem demod_hygiene_witness :
    (demod (hygiene_env ⟨0⟩ ⟨1⟩) 2 ⟨[], 0, 0⟩ ⟨0⟩).1 =
      .ok ⟨⟨[⟨.Function ⟨"f", 0⟩ [] [] [] none ⟨.Var "f", 1⟩, 2⟩,
             ⟨.Function ⟨"f" ++ "-" ++ toString (1 : Nat), 6⟩ [] [] [] none
               ⟨.Var ("f" ++ "-" ++ toString (1 : Nat)), 7⟩, 8⟩], ⟨.LitNum 0, 4⟩⟩, 5⟩ ∧
    "f" ++ "-" ++ toString (1 : Nat) ≠ "f" :=
  demod_hygiene ⟨0⟩ ⟨1⟩ (by decide)

/-- The three-module environment of the re-export scenario: `A` requires
`B`, `B` requires `C`, `C` provides `g` and defines a function `g`; `B`
does not re-provide `g`. -/
def reexport_env (A B C : ModuleId) : DemodEnv where
  fallback := fun _ => .ok ""
  parse_program := fun _ id =>
    if id = A then .ok ⟨⟨[⟨.Require B, 0⟩], ⟨.LitNum 0, 1⟩⟩, 2⟩
    else if id = B then .ok ⟨⟨[⟨.Require C, 3⟩], ⟨.LitNum 0, 4⟩⟩, 5⟩
    else if id = C then
      .ok ⟨⟨[⟨.Provide "g", 6⟩, ⟨.Function ⟨"g", 7⟩ [] [] [] none ⟨.Var "g", 8⟩, 9⟩],
        ⟨.LitNum 0, 10⟩⟩, 11⟩
    else .error (.err "module not available")

/-- C4: with `A requires B requires C`, `C` providing `g` and `B` not
re-providing it, resolving `A` leaves no top-level definition literally
named `g`: inlining `C` into `B` keeps `g` unmangled (it is in `C`'s
export set), but the `B`-into-`A` edge renames it with `B`'s tag because
`B`'s own export set is empty. -/
theorem demod_reexport_not_transitive (A B C : ModuleId)
    (hBA : B ≠ A) (hCA : C ≠ A) (hCB : C ≠ B) :
    (demod (reexport_env A B C) 3 ⟨[], 0, 0⟩ A).1 =
      .ok ⟨⟨[⟨.Function ⟨"g" ++ "-" ++ toString B.uniqid, 7⟩ [] [] [] none
        ⟨.Var ("g" ++ "-" ++ toString B.uniqid), 8⟩, 9⟩], ⟨.LitNum 0, 1⟩⟩, 2⟩ ∧
    (∀ d ∈ ([⟨.Function ⟨"g" ++ "-" ++ toString B.uniqid, 7⟩ [] [] [] none
        ⟨.Var ("g" ++ "-" ++ toString B.uniqid), 8⟩, 9⟩] : List (Ctx RawDefn)),
      (Ctx.inner d).defn_name ≠ some "g") := by
  have hpA : (reexport_env A B C).parse_program "" A =
      .ok ⟨⟨[⟨.Require B, 0⟩], ⟨.LitNum 0, 1⟩⟩, 2⟩ := by
    simp [reexport_env]
  have hpB : (reexport_env A B C).parse_program "" B =
      .ok ⟨⟨[⟨.Require C, 3⟩], ⟨.LitNum 0, 4⟩⟩, 5⟩ := by
    simp [reexport_env, hBA]
  have hpC : (reexport_env A B C).parse_program "" C =
      .ok ⟨⟨[⟨.Provide "g", 6⟩, ⟨.Function ⟨"g", 7⟩ [] [] [] none ⟨.Var "g", 8⟩, 9⟩],
        ⟨.LitNum 0, 10⟩⟩, 11⟩ := by
    simp [reexport_env, hCA, hCB]
  have hfb : ∀ i, (reexport_env A B C).fallback i = .ok "" := fun _ => rfl
  have hC : demod (reexport_env A B C) 1 ⟨[], 2, 2⟩ C =
      (.ok ⟨⟨[⟨.Provide "g", 6⟩, ⟨.Function ⟨"g", 7⟩ [] [] [] none ⟨.Var "g", 8⟩, 9⟩],
        ⟨.LitNum 0, 10⟩⟩, 11⟩, ⟨[], 3, 3⟩) := by
    rw [demod_succ _ 0]
    simp [List.lookup_nil, hfb, hpC]
    rw [demod_defs_cons_skip _ _ ⟨.Provide "g", 6⟩ _ rfl,
      demod_defs_cons_skip _ _ ⟨.Function ⟨"g", 7⟩ [] [] [] none ⟨.Var "g", 8⟩, 9⟩ _ rfl,
      demod_defs_nil]
  have hmC : mangle [⟨.Provide "g", 6⟩, ⟨.Function ⟨"g", 7⟩ [] [] [] none ⟨.Var "g", 8⟩, 9⟩]
      C = .ok [⟨.Function ⟨"g", 7⟩ [] [] [] none ⟨.Var "g", 8⟩, 9⟩] := by
    simp [mangle, mangle_defs, mangle_defn, no_mangle_of, mangle_ctx_sym, mangle_sym,
      mangle_expr]
  have hB : demod (reexport_env A B C) 2 ⟨[], 1, 1⟩ B =
      (.ok ⟨⟨[⟨.Function ⟨"g", 7⟩ [] [] [] none ⟨.Var "g", 8⟩, 9⟩], ⟨.LitNum 0, 4⟩⟩, 5⟩,
        ⟨[], 3, 3⟩) := by
    rw [demod_succ _ 1]
    simp [List.lookup_nil, hfb, hpB]
    rw [demod_defs_cons_require]
    simp [hC, hmC, demod_defs_nil]
  have hmB : mangle [⟨.Function ⟨"g", 7⟩ [] [] [] none ⟨.Var "g", 8⟩, 9⟩] B =
      .ok [⟨.Function ⟨"g" ++ "-" ++ toString B.uniqid, 7⟩ [] [] [] none
        ⟨.Var ("g" ++ "-" ++ toString B.uniqid), 8⟩, 9⟩] := by
    simp [mangle, mangle_defs, mangle_defn, no_mangle_of, mangle_ctx_sym, mangle_sym,
      mangle_expr]
  constructor
  · rw [demod_succ _ 2]
    simp [List.lookup_nil, hfb, hpA]
    rw [demod_defs_cons_require]
    simp [hB, hmB, demod_defs_nil]
  · intro d hd
    simp at hd
    subst hd
    simp [RawDefn.defn_name]
    exact append_tag_ne "g" (toString B.uniqid)

theorem demod_reexport_not_transitive_witness :
    (demod (reexport_env ⟨0⟩ ⟨1⟩ ⟨2⟩) 3 ⟨[], 0, 0⟩ ⟨0⟩).1 =
      .ok ⟨⟨[⟨.Function ⟨"g" ++ "-" ++ toString (1 : Nat), 7⟩ [] [] [] none
        ⟨.Var ("g" ++ "-" ++ toString (1 : Nat)), 8⟩, 9⟩], ⟨.LitNum 0, 1⟩⟩, 2⟩ ∧
    (∀ d ∈ ([⟨.Function ⟨"g" ++ "-" ++ toString (1 : Nat), 7⟩ [] [] [] none
        ⟨.Var ("g" ++ "-" ++ toString (1 : Nat)), 8⟩, 9⟩] : List (Ctx RawDefn)),
      (Ctx.inner d).defn_name ≠ some "g") :=
  demod_reexport_not_transitive ⟨0⟩ ⟨1⟩ ⟨2⟩ (by decide) (by decide) (by decide)

/-! ## The require/provide invariant of successful resolutions -/

/-- A definition the renamer emits is never a `Require` and never a
`Provide` (the emitted forms are `Function` and `Struct` only). -/
theorem mangle_defn_shape (d : Ctx RawDefn) (source : ModuleId) (nm : Finset Symbol)
    (x : Ctx RawDefn) (h : mangle_defn d source nm = .ok (some x)) :
    x.inner.isRequire = false ∧ x.inner.isProvide = false := by
  obtain ⟨di, c⟩ := d
  cases di <;> simp [mangle_defn] at h <;> subst h <;>
    simp [RawDefn.isRequire, RawDefn.isProvide]

/-- Every definition in a successful `mangle_defs` output is the renaming
of some input definition. -/
theorem mangle_defs_mem (defs : List (Ctx RawDefn)) (source : ModuleId) (nm : Finset Symbol)
    (out : List (Ctx RawDefn)) (h : mangle_defs defs source nm = .ok out) :
    ∀ x ∈ out, ∃ d ∈ defs, mangle_defn d source nm = .ok (some x) := by
  induction defs generalizing out with
  | nil =>
      simp [mangle_defs] at h
      subst h
      simp
  | cons d ds ih =>
      intro x hx
      rw [mangle_defs] at h
      cases h1 : mangle_defn d source nm with
      | error e => rw [h1] at h; simp at h
      | ok o =>
        cases h2 : mangle_defs ds source nm with
        | error e => rw [h1, h2] at h; simp at h
        | ok rest =>
          rw [h1, h2] at h
          cases o with
          | none =>
              simp at h
              subst h
              obtain ⟨dd, hdd, hok⟩ := ih rest h2 x hx
              exact ⟨dd, List.mem_cons_of_mem _ hdd, hok⟩
          | some y =>
              simp at h
              subst h
              rcases List.mem_cons.1 hx with rfl | hmem
              · exact ⟨d, List.mem_cons_self _ _, h1⟩
              · obtain ⟨dd, hdd, hok⟩ := ih rest h2 x hmem
                exact ⟨dd, List.mem_cons_of_mem _ hdd, hok⟩

/-- Every definition in a successful `mangle` output is the renaming of
some input definition. -/
theorem mangle_mem (defs : List (Ctx RawDefn)) (source : ModuleId)
    (out : List (Ctx RawDefn)) (h : mangle defs source = .ok out) :
    ∀ x ∈ out, ∃ d ∈ defs, mangle_defn d source (no_mangle_of defs) = .ok (some x) :=
  mangle_defs_mem defs source (no_mangle_of defs) out h

/-- Shape of a successful `demod_defs` output: every emitted definition is
a non-`Require`, and the emitted `Provide`s are exactly the input's own
`Provide`s (renamer output contains none, copied definitions survive). -/
theorem demod_defs_shape
    (resolve : DemodState → ModuleId → Except Failure (Ctx RawProgram) × DemodState)
    (ds : List (Ctx RawDefn)) (st : DemodState) (out : List (Ctx RawDefn)) (st' : DemodState)
    (h : demod_defs resolve st ds = (.ok out, st')) :
    (∀ x ∈ out, x.inner.isRequire = false ∧ (x.inner.isProvide = true → x ∈ ds)) ∧
    (∀ d ∈ ds, d.inner.isProvide = true → d ∈ out) := by
  induction ds generalizing st out st' with
  | nil =>
      rw [demod_defs_nil] at h
      simp at h
      obtain ⟨h1, _⟩ := h
      subst h1
      simp
  | cons d ds ih =>
      obtain ⟨di, c⟩ := d
      cases di with
      | Require other =>
          rw [demod_defs_cons_require] at h
          rcases h1 : resolve st other with ⟨r, st1⟩
          cases r with
          | error e => rw [h1] at h; simp at h
          | ok subp =>
            rw [h1] at h
            simp only [] at h
            cases h2 : mangle subp.inner.definitions other with
            | error e => simp [h2] at h
            | ok mangled =>
              simp only [h2] at h
              rcases h3 : demod_defs resolve st1 ds with ⟨rr, st2⟩
              cases rr with
              | error e => simp [h3] at h
              | ok rest =>
                simp only [h3] at h
                simp at h
                obtain ⟨hout, _⟩ := h
                subst hout
                have hmm := mangle_mem _ _ _ h2
                have IH := ih st1 rest st2 h3
                constructor
                · intro x hx
                  rcases List.mem_append.1 hx with hx1 | hx2
                  · obtain ⟨dd, _, hok⟩ := hmm x hx1
                    have hs := mangle_defn_shape _ _ _ _ hok
                    refine ⟨hs.1, fun hp => ?_⟩
                    rw [hs.2] at hp
                    cases hp
                  · have hs := IH.1 x hx2
                    exact ⟨hs.1, fun hp => List.mem_cons_of_mem _ (hs.2 hp)⟩
                · intro dd hdd hp
                  rcases List.mem_cons.1 hdd with rfl | hmem
                  · simp [RawDefn.isProvide] at hp
                  · exact List.mem_append_right _ (IH.2 dd hmem hp)
      | Function name cgvars genvars args rettype body =>
          rw [demod_defs_cons_skip _ _
            ⟨.Function name cgvars genvars args rettype body, c⟩ _ rfl] at h
          rcases h3 : demod_defs resolve st ds with ⟨rr, st1⟩
          cases rr with
          | error e => simp [h3] at h
          | ok rest =>
            simp only [h3] at h
            simp at h
            obtain ⟨hout, _⟩ := h
            subst hout
            have IH := ih st rest st1 h3
            constructor
            · intro x hx
              rcases List.mem_cons.1 hx with rfl | hmem
              · exact ⟨rfl, fun _ => List.mem_cons_self _ _⟩
              · have hs := IH.1 x hmem
                exact ⟨hs.1, fun hp => List.mem_cons_of_mem _ (hs.2 hp)⟩
            · intro dd hdd hp
              rcases List.mem_cons.1 hdd with rfl | hmem
              · exact List.mem_cons_self _ _
              · exact List.mem_cons_of_mem _ (IH.2 dd hmem hp)
      | Struct name fields =>
          rw [demod_defs_cons_skip _ _ ⟨.Struct name fields, c⟩ _ rfl] at h
          rcases h3 : demod_defs resolve st ds with ⟨rr, st1⟩
          cases rr with
          | error e => simp [h3] at h
          | ok rest =>
            simp only [h3] at h
            simp at h
            obtain ⟨hout, _⟩ := h
            subst hout
            have IH := ih st rest st1 h3
            constructor
            · intro x hx
              rcases List.mem_cons.1 hx with rfl | hmem
              · exact ⟨rfl, fun _ => List.mem_cons_self _ _⟩
              · have hs := IH.1 x hmem
                exact ⟨hs.1, fun hp => List.mem_cons_of_mem _ (hs.2 hp)⟩
            · intro dd hdd hp
              rcases List.mem_cons.1 hdd with rfl | hmem
              · exact List.mem_cons_self _ _
              · exact List.mem_cons_of_mem _ (IH.2 dd hmem hp)
      | Constant name value =>
          rw [demod_defs_cons_skip _ _ ⟨.Constant name value, c⟩ _ rfl] at h
          rcases h3 : demod_defs resolve st ds with ⟨rr, st1⟩
          cases rr with
          | error e => simp [h3] at h
          | ok rest =>
            simp only [h3] at h
            simp at h
            obtain ⟨hout, _⟩ := h
            subst hout
            have IH := ih st rest st1 h3
            constructor
            · intro x hx
              rcases List.mem_cons.1 hx with rfl | hmem
              · exact ⟨rfl, fun _ => List.mem_cons_self _ _⟩
              · have hs := IH.1 x hmem
                exact ⟨hs.1, fun hp => List.mem_cons_of_mem _ (hs.2 hp)⟩
            · intro dd hdd hp
              rcases List.mem_cons.1 hdd with rfl | hmem
              · exact List.mem_cons_self _ _
              · exact List.mem_cons_of_mem _ (IH.2 dd hmem hp)
      | Provide sym =>
          rw [demod_defs_cons_skip _ _ ⟨.Provide sym, c⟩ _ rfl] at h
          rcases h3 : demod_defs resolve st ds with ⟨rr, st1⟩
          cases rr with
          | error e => simp [h3] at h
          | ok rest =>
            simp only [h3] at h
            simp at h
            obtain ⟨hout, _⟩ := h
            subst hout
            have IH := ih st rest st1 h3
            constructor
            · intro x hx
              rcases List.mem_cons.1 hx with rfl | hmem
              · exact ⟨rfl, fun _ => List.mem_cons_self _ _⟩
              · have hs := IH.1 x hmem
                exact ⟨hs.1, fun hp => List.mem_cons_of_mem _ (hs.2 hp)⟩
            · intro dd hdd hp
              rcases List.mem_cons.1 hdd with rfl | hmem
              · exact List.mem_cons_self _ _
              · exact List.mem_cons_of_mem _ (IH.2 dd hmem hp)

/-- C6: a successful resolution (from the empty cache `new_at_fs` starts
with) yields a program with zero `Require` definitions, in which every
`Provide` of the parsed root module survives verbatim and every surviving
`Provide` is one of the root module's own (inlined dependencies' `Provide`s
are consumed and dropped). -/
theorem demod_no_require_root_provides (env : DemodEnv) (fuel : Nat) (st : DemodState)
    (id : ModuleId) (p : Ctx RawProgram) (st' : DemodState) (raw : String)
    (parsed : Ctx RawProgram)
    (hcache : st.cache = [])
    (hload : env.fallback id = .ok raw)
    (hparse : env.parse_program raw id = .ok parsed)
    (h : demod env fuel st id = (.ok p, st')) :
    (∀ d ∈ p.inner.definitions, d.inner.isRequire = false) ∧
    (∀ d ∈ p.inner.definitions, d.inner.isProvide = true → d ∈ parsed.inner.definitions) ∧
    (∀ d ∈ parsed.inner.definitions, d.inner.isProvide = true → d ∈ p.inner.definitions) := by
  cases fuel with
  | zero => simp [demod] at h
  | succ fuel =>
      rw [demod_succ, hcache, hload] at h
      simp [List.lookup_nil] at h
      rw [hparse] at h
      simp only [] at h
      rcases hd : demod_defs (fun s m => demod env fuel s m)
          { cache := [], loads := st.loads + 1, parses := st.parses + 1 }
          parsed.inner.definitions with ⟨r, st3⟩
      cases r with
      | error e => simp [hd] at h
      | ok new_defs =>
        simp only [hd] at h
        simp at h
        obtain ⟨hp, _⟩ := h
        subst hp
        have H := demod_defs_shape _ _ _ _ _ hd
        exact ⟨fun d hdm => (H.1 d hdm).1, fun d hdm => (H.1 d hdm).2, H.2⟩

/-- A definition-free-of-requires environment for the C6 witness: one
module providing `p` and declaring a struct. -/
def c6_env : DemodEnv where
  fallback := fun _ => .ok ""
  parse_program := fun _ _ =>
    .ok ⟨⟨[⟨.Provide "p", 0⟩, ⟨.Struct ⟨"s", 1⟩ [], 2⟩], ⟨.LitNum 0, 3⟩⟩, 4⟩

theorem demod_no_require_root_provides_witness :
    (∀ d ∈ ([⟨.Provide "p", 0⟩, ⟨.Struct ⟨"s", 1⟩ [], 2⟩] : List (Ctx RawDefn)),
      (Ctx.inner d).isRequire = false) ∧
    (∀ d ∈ ([⟨.Provide "p", 0⟩, ⟨.Struct ⟨"s", 1⟩ [], 2⟩] : List (Ctx RawDefn)),
      (Ctx.inner d).isProvide = true →
        d ∈ ([⟨.Provide "p", 0⟩, ⟨.Struct ⟨"s", 1⟩ [], 2⟩] : List (Ctx RawDefn))) ∧
    (∀ d ∈ ([⟨.Provide "p", 0⟩, ⟨.Struct ⟨"s", 1⟩ [], 2⟩] : List (Ctx RawDefn)),
      (Ctx.inner d).isProvide = true →
        d ∈ ([⟨.Provide "p", 0⟩, ⟨.Struct ⟨"s", 1⟩ [], 2⟩] : List (Ctx RawDefn))) :=
  demod_no_require_root_provides c6_env 1 ⟨[], 0, 0⟩ ⟨7⟩
    ⟨⟨[⟨.Provide "p", 0⟩, ⟨.Struct ⟨"s", 1⟩ [], 2⟩], ⟨.LitNum 0, 3⟩⟩, 4⟩ ⟨[], 1, 1⟩ ""
    ⟨⟨[⟨.Provide "p", 0⟩, ⟨.Struct ⟨"s", 1⟩ [], 2⟩], ⟨.LitNum 0, 3⟩⟩, 4⟩
    rfl rfl rfl rfl

end Melodeon
